import Mathlib

/-!
# TimerApp: the timer store and the countdown step of `HomeScreen.js`

A shallow embedding of the state handled by the `HomeScreen` component
(`timers`, `newTimer`, `modalVisible`), of the `AsyncStorage` key `timers`,
and of the alerts raised through `Alert.alert`, followed by the properties
of the handlers `saveTimer`, `deleteTimer`, `clearAllTimers`, `startTimer`,
`pauseTimer`, `resetTimer`, `startAllTimers`, `pauseAllTimers`,
`resetAllTimers` and of the one-second countdown callback.

Conventions of the embedding.

* A JavaScript number is a binary64 double. The only numbers the handlers
  compute are results of `parseInt(_, 10)` and of `remaining - 1`: `NaN`, an
  infinity, or a whole number that a double holds. `JSNum.ofInt` rounds an
  exact integer to the nearest double (53 significant bits, ties to even,
  overflow to an infinity); it is the identity up to `2 ^ 53` in magnitude.
  The zero `-0` is identified with `0`: the operators `>`, `===` and `-` of
  the handlers and `JSON.stringify` do not tell them apart.
* `Date.now()` is an argument (`now`) of `saveTimer`.
* The string stored under the key `timers` is `JSON.stringify ts`; it is
  represented by the value `JSON.parse` reads back from it, which is `ts`
  with every `remaining` that is `NaN` or infinite replaced by `null`
  (`jsonValue`), and a missing key by `none`.
* `Alert.alert title message` appends `(title, message)` to the log
  `alerts` of the state.
-/

set_option exponentiation.threshold 1100
set_option maxRecDepth 20000

namespace TimerApp

/-! ## Data model -/

/-- A value of the field `remaining`: the number `NaN`, an infinity or a
whole number, or `null`, which is what `JSON` keeps of a number that is not
finite. -/
inductive JSNum where
  | nan : JSNum
  | posInf : JSNum
  | negInf : JSNum
  | int (z : Int) : JSNum
  | null : JSNum
deriving DecidableEq

/-- The three values the field `status` takes: the strings `paused`,
`running` and `completed`. -/
inductive Status where
  | paused : Status
  | running : Status
  | completed : Status
deriving DecidableEq

/-- The form state `newTimer`: three text fields. -/
structure NewTimer where
  name : String
  duration : String
  category : String
deriving DecidableEq

/-- A timer record: the three form fields spread into the object, then
`id`, `status` and `remaining`. -/
structure Timer where
  name : String
  duration : String
  category : String
  id : Nat
  status : Status
  remaining : JSNum
deriving DecidableEq

/-- One call of `Alert.alert title message`. -/
structure AlertMsg where
  title : String
  message : String
deriving DecidableEq

/-- The component state together with the storage key and the alert log. -/
structure AppState where
  timers : List Timer
  modalVisible : Bool
  newTimer : NewTimer
  storage : Option (List Timer)
  alerts : List AlertMsg
deriving DecidableEq

/-- The state of a freshly mounted component with nothing stored. -/
def emptyState : AppState :=
  { timers := [], modalVisible := false, newTimer := ⟨"", "", ""⟩,
    storage := none, alerts := [] }

/-! ## JavaScript primitives used by the handlers -/

/-- The exponent `e` of the binade of `a`, searched upwards from `e`: the
first `e` with `a < 2 ^ (53 + e)`. -/
def binadeFrom : Nat → Nat → Nat → Nat
  | 0, _, e => e
  | fuel + 1, a, e => if a < 2 ^ (53 + e) then e else binadeFrom fuel a (e + 1)

/-- The magnitude `a` rounded to the nearest binary64 double, ties to even;
`none` when the result overflows to an infinity. Up to `2 ^ 53` every whole
number is a double. Above, with `2 ^ (52 + e) ≤ a < 2 ^ (53 + e)`, the
doubles are the multiples of `2 ^ e`; from `2 ^ 1024 - 2 ^ 970` on the
nearest double would be `2 ^ 1024`, which is the overflow. -/
def roundNat (a : Nat) : Option Nat :=
  if a ≤ 2 ^ 53 then some a
  else if 2 ^ 1024 - 2 ^ 970 ≤ a then none
  else
    let e := binadeFrom 970 a 1
    let q := a / 2 ^ e
    let r := a % 2 ^ e
    if 2 ^ (e - 1) < r ∨ (r = 2 ^ (e - 1) ∧ q % 2 = 1) then some ((q + 1) * 2 ^ e)
    else some (q * 2 ^ e)

/-- The double nearest to the exact integer `z`. -/
def JSNum.ofInt (z : Int) : JSNum :=
  match roundNat z.natAbs with
  | some m => .int (if z < 0 then -(m : Int) else (m : Int))
  | none => if z < 0 then .negInf else .posInf

/-- The comparison `x > 0`: false for `NaN`; `null` counts as 0. -/
def JSNum.gtZero : JSNum → Bool
  | .int z => decide (0 < z)
  | .posInf => true
  | _ => false

/-- The comparison `x === 0`: false for `NaN` and for `null`. -/
def JSNum.isZero : JSNum → Bool
  | .int z => decide (z = 0)
  | _ => false

/-- The subtraction `x - 1`, rounded to a double: `NaN` and the infinities
stay as they are; `null` counts as 0. -/
def JSNum.pred : JSNum → JSNum
  | .int z => .ofInt (z - 1)
  | .null => .int (-1)
  | x => x

/-- The comparison `x <= y`: false when either side is `NaN`; `null` counts
as 0. -/
def JSNum.le : JSNum → JSNum → Bool
  | .nan, _ => false
  | _, .nan => false
  | .negInf, _ => true
  | _, .posInf => true
  | .posInf, _ => false
  | _, .negInf => false
  | .int a, .int b => decide (a ≤ b)
  | .int a, .null => decide (a ≤ 0)
  | .null, .int b => decide (0 ≤ b)
  | .null, .null => true

/-- The operator `!s` on a string: true exactly for the empty string. -/
def isFalsy (s : String) : Bool :=
  s.data.isEmpty

/-- The white space and line terminators that `parseInt` skips at the start
of its argument. -/
def isStrWhiteSpaceChar (c : Char) : Bool :=
  let n := c.toNat
  n = 0x09 || n = 0x0A || n = 0x0B || n = 0x0C || n = 0x0D || n = 0x20 ||
  n = 0xA0 || n = 0x1680 || (0x2000 ≤ n && n ≤ 0x200A) || n = 0x2028 ||
  n = 0x2029 || n = 0x202F || n = 0x205F || n = 0x3000 || n = 0xFEFF

/-- A decimal digit, the digits of radix 10. -/
def isDecDigit (c : Char) : Bool :=
  48 ≤ c.toNat && c.toNat ≤ 57

/-- The value of a run of decimal digits, most significant first. -/
def decValue (cs : List Char) : Nat :=
  cs.foldl (fun acc c => 10 * acc + (c.toNat - 48)) 0

/-- The sign read by `parseInt` and the text after it. -/
def splitSign : List Char → Int × List Char
  | '-' :: rest => (-1, rest)
  | '+' :: rest => (1, rest)
  | cs => (1, cs)

/-- The call `parseInt(s, 10)`: skip leading white space, read an optional
sign, take the longest run of decimal digits; `NaN` when that run is
empty, else the double nearest to the signed value of the run. (ECMAScript
lets an engine read the digits after the 20th significant one as 0; the value
here is the correctly rounded one.) -/
def parseInt (s : String) : JSNum :=
  let trimmed := s.data.dropWhile isStrWhiteSpaceChar
  let signed := splitSign trimmed
  let digits := signed.2.takeWhile isDecDigit
  if digits.isEmpty then .nan else .ofInt (signed.1 * (decValue digits : Int))

/-! ## The handlers -/

/-- The form handlers `onChangeText`, taken together: the form holds `nt`. -/
def setNewTimer (s : AppState) (nt : NewTimer) : AppState :=
  { s with newTimer := nt }

/-- The record `saveTimer` appends. -/
def mkTimer (nt : NewTimer) (now : Nat) : Timer :=
  { name := nt.name, duration := nt.duration, category := nt.category,
    id := now, status := .paused, remaining := parseInt nt.duration }

/-- What `JSON.parse (JSON.stringify timer)` is: a `remaining` that is not a
finite number is written as `null`; the other fields come back as they
were. -/
def jsonValue (timer : Timer) : Timer :=
  match timer.remaining with
  | .int _ => timer
  | _ => { timer with remaining := .null }

/-- The handler `saveTimer`; `now` is the value of `Date.now()`. -/
def saveTimer (s : AppState) (now : Nat) : AppState :=
  if isFalsy s.newTimer.name || isFalsy s.newTimer.duration
      || isFalsy s.newTimer.category then
    { s with alerts := s.alerts ++ [⟨"Error", "fill all fields"⟩] }
  else
    let updatedTimers := s.timers ++ [mkTimer s.newTimer now]
    { s with
      timers := updatedTimers
      storage := some (updatedTimers.map jsonValue)
      modalVisible := false
      newTimer := ⟨"", "", ""⟩ }

/-- The handler `deleteTimer`. -/
def deleteTimer (s : AppState) (id : Nat) : AppState :=
  let updatedTimers := s.timers.filter (fun timer => timer.id ≠ id)
  { s with timers := updatedTimers, storage := some (updatedTimers.map jsonValue) }

/-- The handler `clearAllTimers`: the key is removed from the storage. -/
def clearAllTimers (s : AppState) : AppState :=
  { s with timers := [], storage := none }

/-- The handler `startTimer`. -/
def startTimer (s : AppState) (id : Nat) : AppState :=
  { s with timers := s.timers.map (fun timer =>
      if timer.id = id then { timer with status := .running } else timer) }

/-- The handler `pauseTimer`. -/
def pauseTimer (s : AppState) (id : Nat) : AppState :=
  { s with timers := s.timers.map (fun timer =>
      if timer.id = id then { timer with status := .paused } else timer) }

/-- The handler `resetTimer`. -/
def resetTimer (s : AppState) (id : Nat) : AppState :=
  { s with timers := s.timers.map (fun timer =>
      if timer.id = id then
        { timer with remaining := parseInt timer.duration, status := .paused }
      else timer) }

/-- The alert of the countdown for a timer called `name`. -/
def completionAlert (name : String) : AlertMsg :=
  ⟨"Timer Completed", name ++ " has finished!"⟩

/-- The callback the countdown maps over the collection: the timer it
returns and the alerts it raises on the way. -/
def tickTimer (timer : Timer) : Timer × List AlertMsg :=
  if timer.status = .running && timer.remaining.gtZero then
    ({ timer with remaining := timer.remaining.pred }, [])
  else if timer.status = .running && timer.remaining.isZero then
    ({ timer with status := .completed }, [completionAlert timer.name])
  else
    (timer, [])

/-- The collection after one pass of the countdown. -/
def tickTimers (ts : List Timer) : List Timer :=
  ts.map (fun timer => (tickTimer timer).1)

/-- The alerts of one pass of the countdown, in the order of the pass. -/
def tickAlerts (ts : List Timer) : List AlertMsg :=
  (ts.map (fun timer => (tickTimer timer).2)).flatten

/-- One firing of the interval: `setTimers (prevTimers => prevTimers.map ...)`. -/
def tick (s : AppState) : AppState :=
  { s with timers := tickTimers s.timers, alerts := s.alerts ++ tickAlerts s.timers }

/-- The handler `startAllTimers`. -/
def startAllTimers (s : AppState) (category : String) : AppState :=
  { s with timers := s.timers.map (fun timer =>
      if timer.category = category then { timer with status := .running } else timer) }

/-- The handler `pauseAllTimers`. -/
def pauseAllTimers (s : AppState) (category : String) : AppState :=
  { s with timers := s.timers.map (fun timer =>
      if timer.category = category then { timer with status := .paused } else timer) }

/-- The handler `resetAllTimers`. -/
def resetAllTimers (s : AppState) (category : String) : AppState :=
  { s with timers := s.timers.map (fun timer =>
      if timer.category = category then
        { timer with remaining := parseInt timer.duration, status := .paused }
      else timer) }

/-! ## Runs -/

/-- The countdown fired `k` times in a row. -/
def ticks : Nat → AppState → AppState
  | 0, s => s
  | k + 1, s => ticks k (tick s)

/-- One user action or one firing of the interval. Saving is filling the
form with `form` and pressing Save at time `now`. -/
inductive Op where
  | save (form : NewTimer) (now : Nat) : Op
  | delete (id : Nat) : Op
  | clearAll : Op
  | start (id : Nat) : Op
  | pause (id : Nat) : Op
  | reset (id : Nat) : Op
  | startAll (category : String) : Op
  | pauseAll (category : String) : Op
  | resetAll (category : String) : Op
  | tick : Op
deriving DecidableEq

/-- The state after one operation. -/
def applyOp (s : AppState) : Op → AppState
  | .save form now => saveTimer (setNewTimer s form) now
  | .delete id => deleteTimer s id
  | .clearAll => clearAllTimers s
  | .start id => startTimer s id
  | .pause id => pauseTimer s id
  | .reset id => resetTimer s id
  | .startAll c => startAllTimers s c
  | .pauseAll c => pauseAllTimers s c
  | .resetAll c => resetAllTimers s c
  | .tick => tick s

/-- The state after a sequence of operations, first to last. -/
def runOps (s : AppState) (ops : List Op) : AppState :=
  ops.foldl applyOp s

/-- The collection read back from the storage with `JSON.parse`: a missing
key reads as the empty collection. -/
def persisted (s : AppState) : List Timer :=
  s.storage.getD []

/-! ## Predicates of the invariants -/

/-- A duration typed as a whole number of at least 1: a non-empty run of
decimal digits whose value is at least 1. -/
def isWholeNumber (duration : String) : Bool :=
  !duration.data.isEmpty && duration.data.all isDecDigit && decide (1 ≤ decValue duration.data)

/-- The restriction on the operations of a run: every save has a
whole-number duration of at least 1. -/
def Op.wholeDuration : Op → Bool
  | .save form _ => isWholeNumber form.duration
  | _ => true

/-- The bounds on one timer: `remaining` is a whole number `r`, the duration
reads as a whole number `d`, and `0 ≤ r ≤ d`; or the duration is so long that
it reads as `Infinity`, and `remaining` is `Infinity` too. -/
def Timer.inBounds (t : Timer) : Prop :=
  (∃ r d : Int, t.remaining = .int r ∧ parseInt t.duration = .int d ∧ 0 ≤ r ∧ r ≤ d) ∨
    (t.remaining = .posInf ∧ parseInt t.duration = .posInf)

/-- A magnitude that a double holds exactly: any whole number up to
`2 ^ 53`, and above that the multiples of `2 ^ e` below `2 ^ (53 + e)`. -/
def Representable (m : Nat) : Prop :=
  m ≤ 2 ^ 53 ∨ ∃ e, 1 ≤ e ∧ e ≤ 971 ∧ 2 ^ e ∣ m ∧ m < 2 ^ (53 + e)

/-- A completed timer has nothing left. -/
def Timer.completedAtZero (t : Timer) : Prop :=
  t.status = .completed → t.remaining = .int 0

/-! ## Rounding to a double -/

theorem binadeFrom_spec (fuel : Nat) : ∀ (a e : Nat), 2 ^ (52 + e) ≤ a →
    a < 2 ^ (53 + e + fuel) →
    e ≤ binadeFrom fuel a e ∧ binadeFrom fuel a e ≤ e + fuel ∧
      2 ^ (52 + binadeFrom fuel a e) ≤ a ∧ a < 2 ^ (53 + binadeFrom fuel a e) := by
  induction fuel with
  | zero =>
    intro a e h1 h2
    simp only [binadeFrom]
    exact ⟨le_refl _, by omega, h1, by simpa using h2⟩
  | succ fuel ih =>
    intro a e h1 h2
    simp only [binadeFrom]
    split
    · rename_i h
      exact ⟨le_refl _, by omega, h1, h⟩
    · rename_i h
      have h3 : 2 ^ (52 + (e + 1)) ≤ a := by
        have he : 52 + (e + 1) = 53 + e := by omega
        rw [he]
        omega
      have h4 : a < 2 ^ (53 + (e + 1) + fuel) := by
        have he : 53 + (e + 1) + fuel = 53 + e + (fuel + 1) := by omega
        rw [he]
        exact h2
      obtain ⟨i1, i2, i3, i4⟩ := ih a (e + 1) h3 h4
      exact ⟨by omega, by omega, i3, i4⟩

theorem roundNat_small (a : Nat) (h : a ≤ 2 ^ 53) : roundNat a = some a := by
  unfold roundNat
  rw [if_pos h]

/-- Above `2 ^ 53` and below the overflow, `roundNat` rounds to a multiple of
the spacing `2 ^ e` of the binade of `a`. -/
theorem roundNat_big (a : Nat) (h1 : 2 ^ 53 < a) (h2 : a < 2 ^ 1024 - 2 ^ 970) :
    ∃ e, 1 ≤ e ∧ e ≤ 971 ∧ 2 ^ (52 + e) ≤ a ∧ a < 2 ^ (53 + e) ∧
      roundNat a =
        if 2 ^ (e - 1) < a % 2 ^ e ∨ (a % 2 ^ e = 2 ^ (e - 1) ∧ a / 2 ^ e % 2 = 1) then
          some ((a / 2 ^ e + 1) * 2 ^ e)
        else some (a / 2 ^ e * 2 ^ e) := by
  have hlo : 2 ^ (52 + 1) ≤ a := by omega
  have hhi : a < 2 ^ (53 + 1 + 970) := by omega
  obtain ⟨i1, i2, i3, i4⟩ := binadeFrom_spec 970 a 1 hlo hhi
  refine ⟨binadeFrom 970 a 1, i1, by omega, i3, i4, ?_⟩
  have n1 : ¬ a ≤ 2 ^ 53 := by omega
  have n2 : ¬ 2 ^ 1024 - 2 ^ 970 ≤ a := by omega
  unfold roundNat
  rw [if_neg n1, if_neg n2]

theorem roundNat_representable (a m : Nat) (h : roundNat a = some m) : Representable m := by
  by_cases h1 : a ≤ 2 ^ 53
  · rw [roundNat_small a h1] at h
    cases h
    exact Or.inl h1
  by_cases h2 : 2 ^ 1024 - 2 ^ 970 ≤ a
  · unfold roundNat at h
    rw [if_neg h1, if_pos h2] at h
    cases h
  obtain ⟨e, he1, he2, hlo, hhi, hround⟩ := roundNat_big a (by omega) (by omega)
  rw [hround] at h
  have hP : 0 < 2 ^ e := Nat.two_pow_pos _
  have hdm : 2 ^ e * (a / 2 ^ e) + a % 2 ^ e = a := Nat.div_add_mod a (2 ^ e)
  have hhi2 : a < 2 ^ 53 * 2 ^ e := by rwa [← pow_add]
  have hq : a / 2 ^ e < 2 ^ 53 := (Nat.div_lt_iff_lt_mul hP).mpr hhi2
  split at h
  · rename_i hup
    cases h
    by_cases hq2 : a / 2 ^ e + 1 < 2 ^ 53
    · refine Or.inr ⟨e, he1, he2, Dvd.intro_left _ rfl, ?_⟩
      rw [pow_add]
      exact Nat.mul_lt_mul_of_pos_right hq2 hP
    · have hq3 : a / 2 ^ e + 1 = 2 ^ 53 := by omega
      have he3 : e ≤ 970 := by
        by_contra hc
        have he4 : e = 971 := by omega
        subst he4
        simp only [Nat.add_one_sub_one] at hup
        omega
      refine Or.inr ⟨e + 1, by omega, by omega, ?_, ?_⟩
      · rw [hq3, ← pow_add]
        exact pow_dvd_pow 2 (by omega)
      · rw [hq3, ← pow_add]
        exact Nat.pow_lt_pow_right (by decide) (by omega)
  · cases h
    refine Or.inr ⟨e, he1, he2, Dvd.intro_left _ rfl, ?_⟩
    rw [pow_add]
    exact Nat.mul_lt_mul_of_pos_right hq hP

/-- Rounding never passes a double that lies above: for `a ≤ b` with `b` a
double, `a` rounds to a double that is still at most `b`. -/
theorem roundNat_le_of_representable (a b : Nat) (hb : Representable b) (hab : a ≤ b) :
    ∃ m, roundNat a = some m ∧ m ≤ b := by
  by_cases h1 : a ≤ 2 ^ 53
  · exact ⟨a, roundNat_small a h1, hab⟩
  rcases hb with hb | ⟨eb, hb1, hb2, ⟨k, hk⟩, hb4⟩
  · omega
  have hPb : 0 < 2 ^ eb := Nat.two_pow_pos _
  have hk2 : k < 2 ^ 53 := by
    have hlt : 2 ^ eb * k < 2 ^ eb * 2 ^ 53 := by
      rw [← hk, ← pow_add, Nat.add_comm]
      exact hb4
    exact Nat.lt_of_mul_lt_mul_left hlt
  have hbmax : b ≤ 2 ^ 971 * (2 ^ 53 - 1) := by
    rw [hk]
    exact Nat.mul_le_mul (Nat.pow_le_pow_right (by decide) hb2) (by omega)
  have h2 : a < 2 ^ 1024 - 2 ^ 970 := by
    have hnum : 2 ^ 971 * (2 ^ 53 - 1) < 2 ^ 1024 - 2 ^ 970 := by norm_num
    omega
  obtain ⟨e, he1, he2, hlo, hhi, hround⟩ := roundNat_big a (by omega) h2
  have hP : 0 < 2 ^ e := Nat.two_pow_pos _
  have hee : e ≤ eb := by
    have hlt : 2 ^ (52 + e) < 2 ^ (53 + eb) := lt_of_le_of_lt hlo (lt_of_le_of_lt hab hb4)
    have := (Nat.pow_lt_pow_iff_right (by decide : 1 < 2)).mp hlt
    omega
  obtain ⟨j, hj⟩ : 2 ^ e ∣ b := Dvd.dvd.trans (pow_dvd_pow 2 hee) ⟨k, hk⟩
  have hdm : 2 ^ e * (a / 2 ^ e) + a % 2 ^ e = a := Nat.div_add_mod a (2 ^ e)
  rw [hround]
  split
  · rename_i hup
    refine ⟨_, rfl, ?_⟩
    have hhalf : 0 < 2 ^ (e - 1) := Nat.two_pow_pos _
    have hrpos : 0 < a % 2 ^ e := by
      rcases hup with hup | hup
      · omega
      · omega
    have hlt : 2 ^ e * (a / 2 ^ e) < 2 ^ e * j := by
      rw [← hj]
      omega
    have hqj : a / 2 ^ e < j := Nat.lt_of_mul_lt_mul_left hlt
    rw [hj, Nat.mul_comm]
    exact Nat.mul_le_mul_left _ hqj
  · refine ⟨_, rfl, ?_⟩
    exact le_trans (Nat.div_mul_le_self a (2 ^ e)) hab

theorem ofInt_small (z : Int) (h : z.natAbs ≤ 2 ^ 53) : JSNum.ofInt z = .int z := by
  simp only [JSNum.ofInt, roundNat_small _ h]
  congr 1
  split <;> omega

theorem ofInt_eq_int (z d : Int) (h : JSNum.ofInt z = .int d) : Representable d.natAbs := by
  unfold JSNum.ofInt at h
  cases hr : roundNat z.natAbs with
  | none =>
    rw [hr] at h
    simp only at h
    split at h <;> cases h
  | some m =>
    rw [hr] at h
    simp only [JSNum.int.injEq] at h
    have hm := roundNat_representable _ _ hr
    have hd : d.natAbs = m := by
      split at h <;> omega
    rw [hd]
    exact hm

/-- One second off a positive whole number that lies at most at a double
`d` is again a whole number between 0 and `d`. -/
theorem pred_bounded (r d : Int) (hpos : 0 < r) (hle : r ≤ d)
    (hd : Representable d.natAbs) :
    ∃ m : Int, JSNum.pred (.int r) = .int m ∧ 0 ≤ m ∧ m ≤ d := by
  obtain ⟨m, hm, hmle⟩ := roundNat_le_of_representable (r - 1).natAbs d.natAbs hd (by omega)
  refine ⟨(m : Int), ?_, by omega, by omega⟩
  simp only [JSNum.pred, JSNum.ofInt, hm]
  congr 1
  split <;> omega

theorem pred_small (r : Int) (hpos : 0 < r) (hle : r ≤ 2 ^ 53) :
    JSNum.pred (.int r) = .int (r - 1) := by
  simp only [JSNum.pred]
  exact ofInt_small (r - 1) (by omega)

/-! ## Decimal numerals and `parseInt` -/

theorem digitChar_dec (k : Nat) (h : k < 10) :
    isDecDigit (Nat.digitChar k) = true ∧ (Nat.digitChar k).toNat - 48 = k := by
  interval_cases k <;> decide

theorem decValue_snoc (pre : List Char) (d : Char) :
    decValue (pre ++ [d]) = 10 * decValue pre + (d.toNat - 48) := by
  simp [decValue, List.foldl_append]

theorem toDigitsCore_dec (fuel : Nat) : ∀ (n : Nat) (ds : List Char), n < fuel →
    ∃ pre, Nat.toDigitsCore 10 fuel n ds = pre ++ ds ∧ pre ≠ [] ∧
      (∀ c ∈ pre, isDecDigit c = true) ∧ decValue pre = n := by
  induction fuel with
  | zero => intro n ds h; omega
  | succ fuel ih =>
    intro n ds h
    have hd := digitChar_dec (n % 10) (Nat.mod_lt n (by decide))
    by_cases hq : n / 10 = 0
    · refine ⟨[Nat.digitChar (n % 10)], ?_, by simp, ?_, ?_⟩
      · simp [Nat.toDigitsCore, hq]
      · intro c hc
        simp only [List.mem_singleton] at hc
        subst hc
        exact hd.1
      · have hlt : n < 10 := by omega
        simp only [decValue, List.foldl_cons, List.foldl_nil, Nat.mul_zero, Nat.zero_add]
        rw [hd.2]
        exact Nat.mod_eq_of_lt hlt
    · have hlt : n / 10 < fuel := by omega
      obtain ⟨pre, hpre, -, hall, hval⟩ := ih (n / 10) (Nat.digitChar (n % 10) :: ds) hlt
      refine ⟨pre ++ [Nat.digitChar (n % 10)], ?_, by simp, ?_, ?_⟩
      · simp [Nat.toDigitsCore, hq, hpre]
      · intro c hc
        rcases List.mem_append.mp hc with hc | hc
        · exact hall c hc
        · simp only [List.mem_singleton] at hc
          subst hc
          exact hd.1
      · rw [decValue_snoc, hval, hd.2]
        omega

theorem decDigit_not_space (c : Char) (h : isDecDigit c = true) :
    isStrWhiteSpaceChar c = false := by
  simp only [isDecDigit, Bool.and_eq_true, decide_eq_true_eq] at h
  simp only [isStrWhiteSpaceChar, Bool.or_eq_false_iff, Bool.and_eq_false_iff,
    decide_eq_false_iff_not]
  omega

theorem splitSign_decDigit (c : Char) (rest : List Char) (h : isDecDigit c = true) :
    splitSign (c :: rest) = (1, c :: rest) := by
  have h1 : c ≠ '-' := by
    rintro rfl
    exact absurd h (by decide)
  have h2 : c ≠ '+' := by
    rintro rfl
    exact absurd h (by decide)
  unfold splitSign
  split
  · simp_all
  · simp_all
  · rfl

/-- A non-empty run of decimal digits parses to the double nearest to its
value. -/
theorem parseInt_digits (cs : List Char) (hne : cs ≠ [])
    (hall : ∀ c ∈ cs, isDecDigit c = true) :
    parseInt ⟨cs⟩ = .ofInt (decValue cs : Int) := by
  obtain ⟨c, rest, rfl⟩ := List.exists_cons_of_ne_nil hne
  have hc : isDecDigit c = true := hall c (List.mem_cons_self _ _)
  have htake : List.takeWhile isDecDigit (c :: rest) = c :: rest :=
    List.takeWhile_eq_self_iff.mpr hall
  simp [parseInt, List.dropWhile, decDigit_not_space c hc, splitSign_decDigit c rest hc, htake]

/-- The decimal numeral of a natural number up to `2 ^ 53` parses back to
that number. -/
theorem parseInt_toString (n : Nat) (hn : n ≤ 2 ^ 53) :
    parseInt (toString n) = .int (n : Int) := by
  obtain ⟨pre, hpre, hne, hall, hval⟩ := toDigitsCore_dec (n + 1) n [] (Nat.lt_succ_self n)
  have hdata : toString n = ⟨pre⟩ := by
    show Nat.repr n = _
    simp [Nat.repr, Nat.toDigits, hpre, List.asString]
  rw [hdata, parseInt_digits pre hne hall, hval]
  exact ofInt_small _ (by omega)

/-- A run of 400 digits is beyond every finite double: it parses to
`Infinity`, and one second off `Infinity` is `Infinity`. -/
theorem parseInt_long_run :
    parseInt ⟨List.replicate 400 '9'⟩ = .posInf ∧ JSNum.pred .posInf = .posInf := by
  decide

/-- Above `2 ^ 53` the numeral is rounded: 9007199254740993 parses to
9007199254740992, and one second off 9007199254740994 is 9007199254740992. -/
theorem parseInt_rounds :
    parseInt "9007199254740993" = .int 9007199254740992 ∧
    JSNum.pred (.int 9007199254740994) = .int 9007199254740992 := by
  decide

theorem toString_ne_empty (n : Nat) : isFalsy (toString n) = false := by
  obtain ⟨pre, hpre, hne, -, -⟩ := toDigitsCore_dec (n + 1) n [] (Nat.lt_succ_self n)
  have hdata : toString n = ⟨pre⟩ := by
    show Nat.repr n = _
    simp [Nat.repr, Nat.toDigits, hpre, List.asString]
  rw [hdata]
  cases pre with
  | nil => exact absurd rfl hne
  | cons c rest => rfl

/-! ## Helper lemmas on the handlers -/

theorem isFalsy_iff (s : String) : isFalsy s = true ↔ s = "" := by
  cases s with
  | mk data =>
    cases data with
    | nil => exact ⟨fun _ => rfl, fun _ => rfl⟩
    | cons c rest =>
      constructor
      · intro h
        simp [isFalsy] at h
      · intro h
        have h2 := congrArg String.data h
        simp at h2

theorem isFalsy_of_ne (s : String) (h : s ≠ "") : isFalsy s = false := by
  cases hf : isFalsy s with
  | false => rfl
  | true => exact absurd ((isFalsy_iff s).mp hf) h

theorem saveTimer_accept (s : AppState) (now : Nat) (h1 : s.newTimer.name ≠ "")
    (h2 : s.newTimer.duration ≠ "") (h3 : s.newTimer.category ≠ "") :
    saveTimer s now =
      { s with
        timers := s.timers ++ [mkTimer s.newTimer now]
        storage := some ((s.timers ++ [mkTimer s.newTimer now]).map jsonValue)
        modalVisible := false
        newTimer := ⟨"", "", ""⟩ } := by
  simp [saveTimer, isFalsy_of_ne _ h1, isFalsy_of_ne _ h2, isFalsy_of_ne _ h3]

theorem saveTimer_reject (s : AppState) (now : Nat)
    (h : s.newTimer.name = "" ∨ s.newTimer.duration = "" ∨ s.newTimer.category = "") :
    saveTimer s now = { s with alerts := s.alerts ++ [⟨"Error", "fill all fields"⟩] } := by
  have hc : (isFalsy s.newTimer.name || isFalsy s.newTimer.duration
      || isFalsy s.newTimer.category) = true := by
    rcases h with h | h | h
    · simp [(isFalsy_iff _).mpr h]
    · simp [(isFalsy_iff _).mpr h]
    · simp [(isFalsy_iff _).mpr h]
  simp [saveTimer, hc]

theorem tickTimers_append (xs ys : List Timer) :
    tickTimers (xs ++ ys) = tickTimers xs ++ tickTimers ys := by
  simp [tickTimers]

theorem tickAlerts_append (xs ys : List Timer) :
    tickAlerts (xs ++ ys) = tickAlerts xs ++ tickAlerts ys := by
  simp [tickAlerts]

theorem tickTimers_cons (t : Timer) (ts : List Timer) :
    tickTimers (t :: ts) = (tickTimer t).1 :: tickTimers ts := by
  simp [tickTimers]

theorem tickAlerts_cons (t : Timer) (ts : List Timer) :
    tickAlerts (t :: ts) = (tickTimer t).2 ++ tickAlerts ts := by
  simp [tickAlerts]

theorem tickTimer_running_pos (t : Timer) (r : Int) (hrun : t.status = .running)
    (hr : t.remaining = .int r) (hpos : 0 < r) (hle : r ≤ 2 ^ 53) :
    tickTimer t = ({ t with remaining := .int (r - 1) }, []) := by
  simp [tickTimer, hrun, hr, JSNum.gtZero, pred_small r hpos hle, hpos]

theorem tickTimer_running_zero (t : Timer) (hrun : t.status = .running)
    (hr : t.remaining = .int 0) :
    tickTimer t = ({ t with status := .completed }, [completionAlert t.name]) := by
  simp [tickTimer, hrun, hr, JSNum.gtZero, JSNum.isZero]

theorem tickTimer_not_running (t : Timer) (h : t.status ≠ .running) :
    tickTimer t = (t, []) := by
  simp [tickTimer, h]

/-- A lone running timer with `m ≤ 2 ^ 53` left, ticked `k ≤ m` times, has
`m - k` left, is still running, and no alert was raised. -/
theorem ticks_single_running (k : Nat) : ∀ (m : Nat) (s : AppState) (t : Timer),
    k ≤ m → m ≤ 2 ^ 53 → s.timers = [t] → t.status = .running →
    t.remaining = .int (m : Int) →
    (ticks k s).timers = [{ t with remaining := .int ((m - k : Nat) : Int) }] ∧
      (ticks k s).alerts = s.alerts := by
  induction k with
  | zero =>
    intro m s t _ _ hs _ hr
    refine ⟨?_, rfl⟩
    simp only [ticks, hs, Nat.sub_zero]
    rw [← hr]
  | succ k ih =>
    intro m s t hk hm hs hrun hr
    have hpos : (0 : Int) < (m : Int) := by omega
    have hstep := tickTimer_running_pos t m hrun hr hpos (by omega)
    have hm1 : ((m : Int) - 1) = ((m - 1 : Nat) : Int) := by omega
    have h := ih (m - 1) (tick s) { t with remaining := .int ((m - 1 : Nat) : Int) }
      (by omega) (by omega) (by simp [tick, hs, tickTimers, hstep, hm1]) hrun rfl
    have hsub : m - 1 - k = m - (k + 1) := by omega
    refine ⟨?_, ?_⟩
    · simp only [ticks]
      rw [h.1, hsub]
    · simp only [ticks]
      rw [h.2]
      simp [tick, hs, tickAlerts, hstep]

/-! ## The countdown scenario -/

/-- C1, as stated, fails: for the timer Tea of duration 5 in Kitchen, saved,
started and ticked exactly 5 times, the timer has 0 left but is still
running, and no alert has been raised. -/
theorem C1_five_ticks_still_running :
    (ticks 5 (startTimer (saveTimer (setNewTimer emptyState ⟨"Tea", "5", "Kitchen"⟩) 1700) 1700)).timers
        = [⟨"Tea", "5", "Kitchen", 1700, .running, .int 0⟩] ∧
    (ticks 5 (startTimer (saveTimer (setNewTimer emptyState ⟨"Tea", "5", "Kitchen"⟩) 1700) 1700)).alerts
        = [] := by
  decide

/-- C1, amended: for every whole-number duration `n` up to `2 ^ 53`, the
range in which every whole number is a double, a timer saved into the empty
collection and started has, after exactly `n` ticks, 0 left and is still
running, with no alert raised on any of the first `n` ticks; the tick after
that, tick `n + 1`, sets it to completed and raises the one completion alert
of the run, for the name of the timer. -/
theorem C1_countdown_completes_after (n : Nat) (name category : String) (now : Nat)
    (hn : n ≤ 2 ^ 53) (hname : name ≠ "") (hcat : category ≠ "") :
    (∀ k, k ≤ n →
      (ticks k (startTimer (saveTimer (setNewTimer emptyState ⟨name, toString n, category⟩) now)
        now)).alerts = []) ∧
    (ticks n (startTimer (saveTimer (setNewTimer emptyState ⟨name, toString n, category⟩) now)
        now)).timers = [⟨name, toString n, category, now, .running, .int 0⟩] ∧
    (ticks (n + 1) (startTimer (saveTimer (setNewTimer emptyState ⟨name, toString n, category⟩) now)
        now)).timers = [⟨name, toString n, category, now, .completed, .int 0⟩] ∧
    (ticks (n + 1) (startTimer (saveTimer (setNewTimer emptyState ⟨name, toString n, category⟩) now)
        now)).alerts = [completionAlert name] := by
  have hdur : toString n ≠ "" := by
    intro h
    have := toString_ne_empty n
    rw [h] at this
    exact absurd this (by decide)
  have hsave := saveTimer_accept (setNewTimer emptyState ⟨name, toString n, category⟩) now
    hname hdur hcat
  generalize hs0 : startTimer (saveTimer (setNewTimer emptyState ⟨name, toString n, category⟩)
    now) now = s0
  have htimers : s0.timers = [⟨name, toString n, category, now, .running, .int (n : Int)⟩] := by
    rw [← hs0, hsave]
    simp [startTimer, setNewTimer, emptyState, mkTimer, parseInt_toString n hn]
  have halerts : s0.alerts = [] := by
    rw [← hs0, hsave]
    simp [startTimer, setNewTimer, emptyState]
  have hrun := fun k (hk : k ≤ n) =>
    ticks_single_running k n s0 _ hk hn htimers rfl rfl
  have hlast : ∀ k (s : AppState), ticks (k + 1) s = tick (ticks k s) := by
    intro k
    induction k with
    | zero => intro s; rfl
    | succ k ih => intro s; exact ih (tick s)
  have hlastn := hrun n (Nat.le_refl n)
  have hzero : tickTimer ⟨name, toString n, category, now, .running, .int 0⟩
      = (⟨name, toString n, category, now, .completed, .int 0⟩, [completionAlert name]) :=
    tickTimer_running_zero _ rfl rfl
  refine ⟨fun k hk => ?_, ?_, ?_, ?_⟩
  · rw [(hrun k hk).2, halerts]
  · simpa using hlastn.1
  · rw [hlast, tick]
    simp only [hlastn.1, Nat.sub_self, Nat.cast_zero, tickTimers, List.map_cons, List.map_nil,
      hzero]
  · rw [hlast, tick]
    simp only [hlastn.1, hlastn.2, halerts, Nat.sub_self, Nat.cast_zero, tickAlerts,
      List.map_cons, List.map_nil, hzero]
    simp

/-- C1, amended, at Tea, 5, Kitchen: six ticks complete the timer. -/
theorem C1_countdown_completes_after_witness :
    (ticks 5 (startTimer (saveTimer (setNewTimer emptyState ⟨"Tea", toString 5, "Kitchen"⟩) 1700)
        1700)).timers = [⟨"Tea", toString 5, "Kitchen", 1700, .running, .int 0⟩] ∧
    (ticks 6 (startTimer (saveTimer (setNewTimer emptyState ⟨"Tea", toString 5, "Kitchen"⟩) 1700)
        1700)).alerts = [completionAlert "Tea"] :=
  ⟨(C1_countdown_completes_after 5 "Tea" "Kitchen" 1700 (by decide) (by decide)
      (by decide)).2.1,
   (C1_countdown_completes_after 5 "Tea" "Kitchen" 1700 (by decide) (by decide)
      (by decide)).2.2.2⟩

/-! ## One tick on one timer of a collection -/

/-- C2: in any collection, for a timer that is running with 0 left, one tick
replaces it by the same timer with status completed and raises exactly one
completion alert for it, placed between the alerts of the timers before it
and after it; a second tick leaves the completed timer as it is and raises
nothing for it. -/
theorem C2_tick_at_zero_completes_once (s : AppState) (before after : List Timer) (t : Timer)
    (hs : s.timers = before ++ t :: after) (hrun : t.status = .running)
    (hzero : t.remaining = .int 0) :
    (tick s).timers
      = tickTimers before ++ { t with status := .completed } :: tickTimers after ∧
    (tick s).alerts
      = s.alerts ++ (tickAlerts before ++ completionAlert t.name :: tickAlerts after) ∧
    (tick (tick s)).timers
      = tickTimers (tickTimers before) ++ { t with status := .completed }
          :: tickTimers (tickTimers after) ∧
    (tick (tick s)).alerts
      = (tick s).alerts ++ (tickAlerts (tickTimers before) ++ tickAlerts (tickTimers after)) := by
  have h1 := tickTimer_running_zero t hrun hzero
  have h2 : tickTimer { t with status := .completed } = ({ t with status := .completed }, []) :=
    tickTimer_not_running _ (by simp)
  have ht : (tick s).timers
      = tickTimers before ++ { t with status := .completed } :: tickTimers after := by
    simp only [tick, hs, tickTimers_append, tickTimers_cons, h1]
  refine ⟨ht, ?_, ?_, ?_⟩
  · simp only [tick, hs, tickAlerts_append, tickAlerts_cons, h1, List.singleton_append]
  · show tickTimers (tick s).timers = _
    rw [ht]
    simp only [tickTimers_append, tickTimers_cons, h2]
  · show (tick s).alerts ++ tickAlerts (tick s).timers = _
    rw [ht]
    simp only [tickAlerts_append, tickAlerts_cons, h2, List.nil_append]

/-- C2 on the collection holding one running timer with 0 left. -/
theorem C2_tick_at_zero_completes_once_witness :
    (tick { emptyState with timers := [⟨"Tea", "5", "Kitchen", 7, .running, .int 0⟩] }).alerts
      = [] ++ (tickAlerts [] ++ completionAlert "Tea" :: tickAlerts []) ∧
    (tick (tick { emptyState with timers := [⟨"Tea", "5", "Kitchen", 7, .running, .int 0⟩] })).alerts
      = (tick { emptyState with timers := [⟨"Tea", "5", "Kitchen", 7, .running, .int 0⟩] }).alerts
        ++ (tickAlerts (tickTimers []) ++ tickAlerts (tickTimers [])) :=
  ⟨(C2_tick_at_zero_completes_once
      { emptyState with timers := [⟨"Tea", "5", "Kitchen", 7, .running, .int 0⟩] }
      [] [] ⟨"Tea", "5", "Kitchen", 7, .running, .int 0⟩ rfl rfl rfl).2.1,
   (C2_tick_at_zero_completes_once
      { emptyState with timers := [⟨"Tea", "5", "Kitchen", 7, .running, .int 0⟩] }
      [] [] ⟨"Tea", "5", "Kitchen", 7, .running, .int 0⟩ rfl rfl rfl).2.2.2⟩

/-- C3, as stated, fails: the timer Tea saved with duration 9007199254740996
(which is `2 ^ 53 + 4`) and started is running with that much left; one tick
leaves `remaining` as it was, since the double nearest to 9007199254740995
is 9007199254740996 again. -/
theorem C3_tick_keeps_large_remaining :
    (startTimer (saveTimer (setNewTimer emptyState ⟨"Tea", "9007199254740996", "Kitchen"⟩) 7)
        7).timers
      = [⟨"Tea", "9007199254740996", "Kitchen", 7, .running, .int 9007199254740996⟩] ∧
    (tick (startTimer
        (saveTimer (setNewTimer emptyState ⟨"Tea", "9007199254740996", "Kitchen"⟩) 7) 7)).timers
      = [⟨"Tea", "9007199254740996", "Kitchen", 7, .running, .int 9007199254740996⟩] := by
  decide

/-- C3, amended: in any collection, for a timer that is running with `r`
left, `0 < r ≤ 2 ^ 53`, one tick replaces it by the same timer with `r - 1`
left, its status still running, and raises no alert for it. -/
theorem C3_tick_decrements_running (s : AppState) (before after : List Timer) (t : Timer)
    (r : Int) (hs : s.timers = before ++ t :: after) (hrun : t.status = .running)
    (hr : t.remaining = .int r) (hpos : 0 < r) (hle : r ≤ 2 ^ 53) :
    (tick s).timers
      = tickTimers before ++ { t with remaining := .int (r - 1) } :: tickTimers after ∧
    ({ t with remaining := .int (r - 1) } : Timer).status = .running ∧
    (tick s).alerts = s.alerts ++ (tickAlerts before ++ tickAlerts after) := by
  have h1 := tickTimer_running_pos t r hrun hr hpos hle
  refine ⟨?_, hrun, ?_⟩
  · simp only [tick, hs, tickTimers_append, tickTimers_cons, h1]
  · simp only [tick, hs, tickAlerts_append, tickAlerts_cons, h1, List.nil_append]

/-- C3, amended, on a paused timer followed by a running timer with 3 left. -/
theorem C3_tick_decrements_running_witness :
    (tick { emptyState with timers :=
        [⟨"Egg", "9", "Kitchen", 1, .paused, .int 9⟩,
         ⟨"Tea", "5", "Kitchen", 2, .running, .int 3⟩] }).timers
      = tickTimers [⟨"Egg", "9", "Kitchen", 1, .paused, .int 9⟩]
          ++ ⟨"Tea", "5", "Kitchen", 2, .running, .int (3 - 1)⟩ :: tickTimers [] :=
  (C3_tick_decrements_running
    { emptyState with timers :=
        [⟨"Egg", "9", "Kitchen", 1, .paused, .int 9⟩,
         ⟨"Tea", "5", "Kitchen", 2, .running, .int 3⟩] }
    [⟨"Egg", "9", "Kitchen", 1, .paused, .int 9⟩] []
    ⟨"Tea", "5", "Kitchen", 2, .running, .int 3⟩ 3 rfl rfl rfl (by decide) (by decide)).1

/-! ## Adding a timer -/

/-- C4, as stated, fails: the input Tea, abc, Kitchen passes the check of
`saveTimer` (no field is empty), and the timer appended for it has `NaN`
left, which is no whole number and so not its duration. -/
theorem C4_accepted_duration_gives_nan :
    isFalsy "Tea" = false ∧ isFalsy "abc" = false ∧ isFalsy "Kitchen" = false ∧
    (saveTimer (setNewTimer emptyState ⟨"Tea", "abc", "Kitchen"⟩) 1700).timers
      = [⟨"Tea", "abc", "Kitchen", 1700, .paused, .nan⟩] ∧
    ¬ ∃ z : Int, (mkTimer ⟨"Tea", "abc", "Kitchen"⟩ 1700).remaining = .int z := by
  refine ⟨by decide, by decide, by decide, by decide, ?_⟩
  rintro ⟨z, hz⟩
  have h : (mkTimer ⟨"Tea", "abc", "Kitchen"⟩ 1700).remaining = .nan := by decide
  rw [h] at hz
  exact JSNum.noConfusion hz

/-- C4, amended: for every state whose form has a non-empty name, duration
and category, `saveTimer` appends exactly one timer after the existing ones,
so the size grows by exactly 1; the new timer carries the three form fields,
is paused, and has `parseInt duration` left, which is the duration itself
whenever the duration is the decimal numeral of a whole number up to
`2 ^ 53`. -/
theorem C4_saveTimer_appends (s : AppState) (now : Nat) (h1 : s.newTimer.name ≠ "")
    (h2 : s.newTimer.duration ≠ "") (h3 : s.newTimer.category ≠ "") :
    (saveTimer s now).timers = s.timers ++ [mkTimer s.newTimer now] ∧
    (saveTimer s now).timers.length = s.timers.length + 1 ∧
    (mkTimer s.newTimer now).name = s.newTimer.name ∧
    (mkTimer s.newTimer now).duration = s.newTimer.duration ∧
    (mkTimer s.newTimer now).category = s.newTimer.category ∧
    (mkTimer s.newTimer now).status = .paused ∧
    (mkTimer s.newTimer now).remaining = parseInt s.newTimer.duration ∧
    (∀ n : Nat, n ≤ 2 ^ 53 → s.newTimer.duration = toString n →
      (mkTimer s.newTimer now).remaining = .int (n : Int)) := by
  have h := saveTimer_accept s now h1 h2 h3
  refine ⟨by rw [h], by rw [h]; simp, rfl, rfl, rfl, rfl, rfl, ?_⟩
  intro n hle hn
  simp only [mkTimer, hn, parseInt_toString n hle]

/-- C4, amended, at Tea, 5, Kitchen added to a collection of one timer. -/
theorem C4_saveTimer_appends_witness :
    (saveTimer { emptyState with
        timers := [⟨"Egg", "9", "Kitchen", 1, .running, .int 4⟩]
        newTimer := ⟨"Tea", "5", "Kitchen"⟩ } 1700).timers
      = [⟨"Egg", "9", "Kitchen", 1, .running, .int 4⟩]
          ++ [mkTimer ⟨"Tea", "5", "Kitchen"⟩ 1700] ∧
    (mkTimer ⟨"Tea", "5", "Kitchen"⟩ 1700).remaining = .int 5 :=
  ⟨(C4_saveTimer_appends { emptyState with
        timers := [⟨"Egg", "9", "Kitchen", 1, .running, .int 4⟩]
        newTimer := ⟨"Tea", "5", "Kitchen"⟩ } 1700 (by decide) (by decide) (by decide)).1,
   (C4_saveTimer_appends { emptyState with
        timers := [⟨"Egg", "9", "Kitchen", 1, .running, .int 4⟩]
        newTimer := ⟨"Tea", "5", "Kitchen"⟩ } 1700 (by decide) (by decide)
        (by decide)).2.2.2.2.2.2.2 5 (by decide) (by decide)⟩

/-- C5, as stated, fails: the duration abc cannot be parsed as a number
(`parseInt` gives `NaN`), yet `saveTimer` does not reject the input Tea, abc,
Kitchen: it raises no error and the collection grows by one timer. The same
holds for a lone dot, which the numeric keypad of the form can type. -/
theorem C5_unparseable_duration_accepted :
    parseInt "abc" = .nan ∧ parseInt "." = .nan ∧
    (saveTimer (setNewTimer emptyState ⟨"Tea", ".", "Kitchen"⟩) 1700).timers.length = 1 ∧
    (saveTimer (setNewTimer emptyState ⟨"Tea", "abc", "Kitchen"⟩) 1700).alerts = [] ∧
    (saveTimer (setNewTimer emptyState ⟨"Tea", "abc", "Kitchen"⟩) 1700).timers.length = 1 ∧
    (saveTimer (setNewTimer emptyState ⟨"Tea", "abc", "Kitchen"⟩) 1700).timers
      ≠ (setNewTimer emptyState ⟨"Tea", "abc", "Kitchen"⟩).timers := by
  decide

/-- C5, amended: for every state whose form has an empty name, an empty
duration or an empty category, `saveTimer` rejects the input: it raises the
alert Error, fill all fields, and leaves the collection and the storage as
they were. -/
theorem C5_saveTimer_rejects_empty (s : AppState) (now : Nat)
    (h : s.newTimer.name = "" ∨ s.newTimer.duration = "" ∨ s.newTimer.category = "") :
    (saveTimer s now).timers = s.timers ∧
    (saveTimer s now).storage = s.storage ∧
    (saveTimer s now).alerts = s.alerts ++ [⟨"Error", "fill all fields"⟩] := by
  rw [saveTimer_reject s now h]
  exact ⟨rfl, rfl, rfl⟩

/-- C5, amended, on a form with an empty duration. -/
theorem C5_saveTimer_rejects_empty_witness :
    (saveTimer { emptyState with
        timers := [⟨"Egg", "9", "Kitchen", 1, .running, .int 4⟩]
        newTimer := ⟨"Tea", "", "Kitchen"⟩ } 1700).timers
      = [⟨"Egg", "9", "Kitchen", 1, .running, .int 4⟩] :=
  (C5_saveTimer_rejects_empty { emptyState with
        timers := [⟨"Egg", "9", "Kitchen", 1, .running, .int 4⟩]
        newTimer := ⟨"Tea", "", "Kitchen"⟩ } 1700 (Or.inr (Or.inl rfl))).1

/-! ## Invariants of the reachable states -/

theorem isWholeNumber_parse (d : String) (h : isWholeNumber d = true) :
    (∃ m : Nat, parseInt d = .int (m : Int)) ∨ parseInt d = .posInf := by
  cases d with
  | mk cs =>
    simp only [isWholeNumber, Bool.and_eq_true, Bool.not_eq_true', List.isEmpty_eq_false,
      List.all_eq_true, decide_eq_true_eq] at h
    obtain ⟨⟨hne, hall⟩, -⟩ := h
    rw [parseInt_digits cs hne hall]
    have hnn : ¬ ((decValue cs : Int) < 0) := by omega
    unfold JSNum.ofInt
    cases roundNat (decValue cs : Int).natAbs with
    | none => exact Or.inr (by simp [hnn])
    | some m => exact Or.inl ⟨m, by simp [hnn]⟩

theorem parseInt_eq_int (d : String) (z : Int) (h : parseInt d = .int z) :
    Representable z.natAbs := by
  unfold parseInt at h
  simp only at h
  split at h
  · cases h
  · exact ofInt_eq_int _ _ h

theorem isWholeNumber_toString (n : Nat) (h : 1 ≤ n) : isWholeNumber (toString n) = true := by
  obtain ⟨pre, hpre, hne, hall, hval⟩ := toDigitsCore_dec (n + 1) n [] (Nat.lt_succ_self n)
  have hdata : toString n = ⟨pre⟩ := by
    show Nat.repr n = _
    simp [Nat.repr, Nat.toDigits, hpre, List.asString]
  rw [hdata]
  simp only [isWholeNumber, Bool.and_eq_true, Bool.not_eq_true', List.isEmpty_eq_false,
    List.all_eq_true, decide_eq_true_eq]
  exact ⟨⟨hne, hall⟩, by omega⟩

theorem forall_mem_map_of (P : Timer → Prop) (f : Timer → Timer) (ts : List Timer)
    (hf : ∀ t, P t → P (f t)) (h : ∀ t ∈ ts, P t) : ∀ t ∈ ts.map f, P t := by
  intro t ht
  obtain ⟨u, hu, rfl⟩ := List.mem_map.mp ht
  exact hf u (h u hu)

theorem inBounds_setStatus (t : Timer) (st : Status) (h : t.inBounds) :
    Timer.inBounds { t with status := st } := h

theorem inBounds_reset (t : Timer) (h : t.inBounds) :
    Timer.inBounds { t with remaining := parseInt t.duration, status := .paused } := by
  rcases h with ⟨r, d, -, hd, h0, hle⟩ | ⟨-, hd⟩
  · exact Or.inl ⟨d, d, hd, hd, le_trans h0 hle, le_refl d⟩
  · exact Or.inr ⟨hd, hd⟩

theorem inBounds_tickTimer (t : Timer) (h : t.inBounds) : (tickTimer t).1.inBounds := by
  rcases h with ⟨r, d, hr, hd, h0, hle⟩ | ⟨hr, hd⟩
  · unfold tickTimer
    split
    · rename_i hc
      simp only [hr, JSNum.gtZero, Bool.and_eq_true, decide_eq_true_eq] at hc
      obtain ⟨m, hm, hm0, hmd⟩ := pred_bounded r d hc.2 hle (parseInt_eq_int _ _ hd)
      refine Or.inl ⟨m, d, ?_, hd, hm0, hmd⟩
      simp only [hr, hm]
    · split
      · exact Or.inl ⟨r, d, hr, hd, h0, hle⟩
      · exact Or.inl ⟨r, d, hr, hd, h0, hle⟩
  · unfold tickTimer
    split
    · refine Or.inr ⟨?_, hd⟩
      simp only [hr, JSNum.pred]
    · split
      · exact Or.inr ⟨hr, hd⟩
      · exact Or.inr ⟨hr, hd⟩

theorem inBounds_mkTimer (form : NewTimer) (now : Nat) (h : isWholeNumber form.duration = true) :
    (mkTimer form now).inBounds := by
  rcases isWholeNumber_parse form.duration h with ⟨m, hp⟩ | hp
  · exact Or.inl ⟨m, m, hp, hp, by omega, le_refl _⟩
  · exact Or.inr ⟨hp, hp⟩

theorem inBounds_le (t : Timer) (h : t.inBounds) :
    JSNum.le (.int 0) t.remaining = true ∧ JSNum.le t.remaining (parseInt t.duration) = true := by
  rcases h with ⟨r, d, hr, hd, h0, hle⟩ | ⟨hr, hd⟩
  · simp [hr, hd, JSNum.le, h0, hle]
  · simp [hr, hd, JSNum.le]

theorem inBounds_applyOp (s : AppState) (op : Op) (hop : op.wholeDuration = true)
    (h : ∀ t ∈ s.timers, t.inBounds) : ∀ t ∈ (applyOp s op).timers, t.inBounds := by
  cases op with
  | save form now =>
    simp only [applyOp, saveTimer, setNewTimer]
    split
    · exact h
    · intro t ht
      rcases List.mem_append.mp ht with ht | ht
      · exact h t ht
      · simp only [List.mem_singleton] at ht
        subst ht
        exact inBounds_mkTimer form now hop
  | delete id =>
    intro t ht
    exact h t (List.mem_of_mem_filter ht)
  | clearAll =>
    intro t ht
    simp [applyOp, clearAllTimers] at ht
  | start id =>
    refine forall_mem_map_of _ _ _ ?_ h
    intro t ht
    split
    · exact inBounds_setStatus t _ ht
    · exact ht
  | pause id =>
    refine forall_mem_map_of _ _ _ ?_ h
    intro t ht
    split
    · exact inBounds_setStatus t _ ht
    · exact ht
  | reset id =>
    refine forall_mem_map_of _ _ _ ?_ h
    intro t ht
    split
    · exact inBounds_reset t ht
    · exact ht
  | startAll c =>
    refine forall_mem_map_of _ _ _ ?_ h
    intro t ht
    split
    · exact inBounds_setStatus t _ ht
    · exact ht
  | pauseAll c =>
    refine forall_mem_map_of _ _ _ ?_ h
    intro t ht
    split
    · exact inBounds_setStatus t _ ht
    · exact ht
  | resetAll c =>
    refine forall_mem_map_of _ _ _ ?_ h
    intro t ht
    split
    · exact inBounds_reset t ht
    · exact ht
  | tick =>
    exact forall_mem_map_of _ _ _ inBounds_tickTimer h

theorem completedAtZero_tickTimer (t : Timer) (h : t.completedAtZero) :
    (tickTimer t).1.completedAtZero := by
  unfold tickTimer
  split
  · rename_i hc
    simp only [Bool.and_eq_true, decide_eq_true_eq] at hc
    intro hst
    simp only [hc.1] at hst
    exact absurd hst (by decide)
  · split
    · rename_i hc
      simp only [Bool.and_eq_true, decide_eq_true_eq] at hc
      intro _
      cases hr : t.remaining with
      | int z =>
        simp only [hr, JSNum.isZero, decide_eq_true_eq] at hc
        simp [hc.2]
      | _ => simp [hr, JSNum.isZero] at hc
    · exact h

theorem completedAtZero_of_not_completed (t : Timer) (h : t.status ≠ .completed) :
    t.completedAtZero :=
  fun hst => absurd hst h

theorem completedAtZero_applyOp (s : AppState) (op : Op)
    (h : ∀ t ∈ s.timers, t.completedAtZero) :
    ∀ t ∈ (applyOp s op).timers, t.completedAtZero := by
  cases op with
  | save form now =>
    simp only [applyOp, saveTimer, setNewTimer]
    split
    · exact h
    · intro t ht
      rcases List.mem_append.mp ht with ht | ht
      · exact h t ht
      · simp only [List.mem_singleton] at ht
        subst ht
        exact completedAtZero_of_not_completed _ (by simp [mkTimer])
  | delete id =>
    intro t ht
    exact h t (List.mem_of_mem_filter ht)
  | clearAll =>
    intro t ht
    simp [applyOp, clearAllTimers] at ht
  | start id =>
    refine forall_mem_map_of _ _ _ ?_ h
    intro t ht
    split
    · exact completedAtZero_of_not_completed _ (by simp)
    · exact ht
  | pause id =>
    refine forall_mem_map_of _ _ _ ?_ h
    intro t ht
    split
    · exact completedAtZero_of_not_completed _ (by simp)
    · exact ht
  | reset id =>
    refine forall_mem_map_of _ _ _ ?_ h
    intro t ht
    split
    · exact completedAtZero_of_not_completed _ (by simp)
    · exact ht
  | startAll c =>
    refine forall_mem_map_of _ _ _ ?_ h
    intro t ht
    split
    · exact completedAtZero_of_not_completed _ (by simp)
    · exact ht
  | pauseAll c =>
    refine forall_mem_map_of _ _ _ ?_ h
    intro t ht
    split
    · exact completedAtZero_of_not_completed _ (by simp)
    · exact ht
  | resetAll c =>
    refine forall_mem_map_of _ _ _ ?_ h
    intro t ht
    split
    · exact completedAtZero_of_not_completed _ (by simp)
    · exact ht
  | tick =>
    exact forall_mem_map_of _ _ _ completedAtZero_tickTimer h

theorem runOps_append_one (s : AppState) (ops : List Op) (op : Op) :
    runOps s (ops ++ [op]) = applyOp (runOps s ops) op := by
  simp [runOps, List.foldl_append]

/-- C6: in every state reached from the empty collection by a sequence of
saves, deletes, clear-alls, starts, pauses, resets, their bulk forms and
ticks, where every save has a whole-number duration of at least 1, every
timer satisfies `0 <= remaining` and `remaining <= d`, `d` being its
duration as `parseInt` reads it: both are whole numbers `r` and `d` with
`0 ≤ r ≤ d`, or, for a duration too long for a finite double, both are
`Infinity`. -/
theorem C6_remaining_within_duration (ops : List Op)
    (hops : ∀ op ∈ ops, op.wholeDuration = true) :
    ∀ t ∈ (runOps emptyState ops).timers,
      JSNum.le (.int 0) t.remaining = true ∧
      JSNum.le t.remaining (parseInt t.duration) = true ∧
      ((∃ r d : Int, t.remaining = .int r ∧ parseInt t.duration = .int d ∧ 0 ≤ r ∧ r ≤ d) ∨
        (t.remaining = .posInf ∧ parseInt t.duration = .posInf)) := by
  have hinv : ∀ t ∈ (runOps emptyState ops).timers, t.inBounds := by
    induction ops using List.reverseRecOn with
    | nil =>
      intro t ht
      simp [runOps, emptyState] at ht
    | append_singleton ops op ih =>
      rw [runOps_append_one]
      exact inBounds_applyOp _ op (hops op (by simp))
        (ih (fun o ho => hops o (List.mem_append_left _ ho)))
  intro t ht
  exact ⟨(inBounds_le t (hinv t ht)).1, (inBounds_le t (hinv t ht)).2, hinv t ht⟩

/-- C6 on a run: save Tea of duration 3, start it, tick twice, reset it,
start the category, tick once; the timer then has 2 of 3 left. -/
theorem C6_remaining_within_duration_witness :
    ∃ r d : Int, (⟨"Tea", "3", "Kitchen", 7, .running, .int 2⟩ : Timer).remaining = .int r ∧
      parseInt (⟨"Tea", "3", "Kitchen", 7, .running, .int 2⟩ : Timer).duration = .int d ∧
      0 ≤ r ∧ r ≤ d :=
  ((C6_remaining_within_duration
    [.save ⟨"Tea", "3", "Kitchen"⟩ 7, .start 7, .tick, .tick, .reset 7,
     .startAll "Kitchen", .tick] (by decide)
    ⟨"Tea", "3", "Kitchen", 7, .running, .int 2⟩ (by decide)).2.2).resolve_right
      (by decide)

/-- C7: in every state reached from the empty collection by a sequence of
saves, deletes, clear-alls, starts, pauses, resets, their bulk forms and
ticks, every timer whose status is completed has 0 left. -/
theorem C7_completed_has_zero_left (ops : List Op) :
    ∀ t ∈ (runOps emptyState ops).timers, t.status = .completed → t.remaining = .int 0 := by
  induction ops using List.reverseRecOn with
  | nil =>
    intro t ht
    simp [runOps, emptyState] at ht
  | append_singleton ops op ih =>
    rw [runOps_append_one]
    exact completedAtZero_applyOp _ op ih

/-- C7 on the run that saves Tea of duration 1, starts it and ticks twice:
the timer is completed and has 0 left. -/
theorem C7_completed_has_zero_left_witness :
    (⟨"Tea", "1", "Kitchen", 7, .completed, .int 0⟩ : Timer).remaining = .int 0 :=
  C7_completed_has_zero_left [.save ⟨"Tea", "1", "Kitchen"⟩ 7, .start 7, .tick, .tick]
    ⟨"Tea", "1", "Kitchen", 7, .completed, .int 0⟩ (by decide) rfl

/-! ## Start and pause on a completed timer -/

/-- C8, as stated, fails: on the collection holding the completed timer Tea
with id 7, `startTimer 7` and `startAllTimers Kitchen` make it running again,
and `pauseTimer 7` and `pauseAllTimers Kitchen` make it paused. -/
theorem C8_completed_timer_restarts :
    (startTimer { emptyState with timers := [⟨"Tea", "5", "Kitchen", 7, .completed, .int 0⟩] }
        7).timers = [⟨"Tea", "5", "Kitchen", 7, .running, .int 0⟩] ∧
    (pauseTimer { emptyState with timers := [⟨"Tea", "5", "Kitchen", 7, .completed, .int 0⟩] }
        7).timers = [⟨"Tea", "5", "Kitchen", 7, .paused, .int 0⟩] ∧
    (startAllTimers { emptyState with timers := [⟨"Tea", "5", "Kitchen", 7, .completed, .int 0⟩] }
        "Kitchen").timers = [⟨"Tea", "5", "Kitchen", 7, .running, .int 0⟩] ∧
    (pauseAllTimers { emptyState with timers := [⟨"Tea", "5", "Kitchen", 7, .completed, .int 0⟩] }
        "Kitchen").timers = [⟨"Tea", "5", "Kitchen", 7, .paused, .int 0⟩] := by
  decide

/-- C8, amended: start and pause do not look at the status. For every
collection and every timer `t` in it with status completed, `startTimer` on
its id and `startAllTimers` on its category replace it by `t` with status
running, `pauseTimer` on its id and `pauseAllTimers` on its category replace
it by `t` with status paused; the other fields, `remaining` included, are
kept, and the timer is no longer completed. -/
theorem C8_start_pause_overwrite_completed (s : AppState) (before after : List Timer)
    (t : Timer) (hs : s.timers = before ++ t :: after) (hdone : t.status = .completed) :
    (startTimer s t.id).timers
      = (startTimer { s with timers := before } t.id).timers
        ++ { t with status := .running } :: (startTimer { s with timers := after } t.id).timers ∧
    (pauseTimer s t.id).timers
      = (pauseTimer { s with timers := before } t.id).timers
        ++ { t with status := .paused } :: (pauseTimer { s with timers := after } t.id).timers ∧
    (startAllTimers s t.category).timers
      = (startAllTimers { s with timers := before } t.category).timers
        ++ { t with status := .running }
          :: (startAllTimers { s with timers := after } t.category).timers ∧
    (pauseAllTimers s t.category).timers
      = (pauseAllTimers { s with timers := before } t.category).timers
        ++ { t with status := .paused }
          :: (pauseAllTimers { s with timers := after } t.category).timers ∧
    ({ t with status := .running } : Timer) ≠ t ∧
    ({ t with status := .paused } : Timer) ≠ t := by
  refine ⟨?_, ?_, ?_, ?_, ?_, ?_⟩
  · simp [startTimer, hs]
  · simp [pauseTimer, hs]
  · simp [startAllTimers, hs]
  · simp [pauseAllTimers, hs]
  · intro h
    have h2 := congrArg Timer.status h
    simp [hdone] at h2
  · intro h
    have h2 := congrArg Timer.status h
    simp [hdone] at h2

/-- C8, amended, on a paused timer followed by the completed timer Tea. -/
theorem C8_start_pause_overwrite_completed_witness :
    (startTimer { emptyState with timers :=
        [⟨"Egg", "9", "Kitchen", 1, .paused, .int 9⟩,
         ⟨"Tea", "5", "Kitchen", 7, .completed, .int 0⟩] } 7).timers
      = (startTimer { emptyState with timers := [⟨"Egg", "9", "Kitchen", 1, .paused, .int 9⟩] }
          7).timers
        ++ ⟨"Tea", "5", "Kitchen", 7, .running, .int 0⟩
          :: (startTimer { emptyState with timers := [] } 7).timers :=
  (C8_start_pause_overwrite_completed
    { emptyState with timers :=
        [⟨"Egg", "9", "Kitchen", 1, .paused, .int 9⟩,
         ⟨"Tea", "5", "Kitchen", 7, .completed, .int 0⟩] }
    [⟨"Egg", "9", "Kitchen", 1, .paused, .int 9⟩] []
    ⟨"Tea", "5", "Kitchen", 7, .completed, .int 0⟩ rfl rfl).1

/-! ## Bulk operations -/

/-- C9: for every collection and category `c`, each of `startAllTimers c`,
`pauseAllTimers c` and `resetAllTimers c` returns a collection of the same
length in which, position by position, a timer of another category is the
timer that was there, and a timer of category `c` is the timer that
`startTimer`, `pauseTimer` or `resetTimer` on its id puts at that position;
bulk start and bulk pause keep `remaining` at every position. -/
theorem C9_bulk_is_single_on_category (s : AppState) (c : String) :
    (startAllTimers s c).timers.length = s.timers.length ∧
    (pauseAllTimers s c).timers.length = s.timers.length ∧
    (resetAllTimers s c).timers.length = s.timers.length ∧
    (∀ (i : Nat) (t : Timer), s.timers[i]? = some t → t.category ≠ c →
      (startAllTimers s c).timers[i]? = some t ∧
      (pauseAllTimers s c).timers[i]? = some t ∧
      (resetAllTimers s c).timers[i]? = some t) ∧
    (∀ (i : Nat) (t : Timer), s.timers[i]? = some t → t.category = c →
      (startAllTimers s c).timers[i]? = (startTimer s t.id).timers[i]? ∧
      (pauseAllTimers s c).timers[i]? = (pauseTimer s t.id).timers[i]? ∧
      (resetAllTimers s c).timers[i]? = (resetTimer s t.id).timers[i]?) ∧
    (∀ (i : Nat) (t : Timer), s.timers[i]? = some t →
      ((startAllTimers s c).timers[i]?).map Timer.remaining = some t.remaining ∧
      ((pauseAllTimers s c).timers[i]?).map Timer.remaining = some t.remaining) := by
  refine ⟨?_, ?_, ?_, ?_, ?_, ?_⟩
  · simp [startAllTimers]
  · simp [pauseAllTimers]
  · simp [resetAllTimers]
  · intro i t hi hc
    simp [startAllTimers, pauseAllTimers, resetAllTimers, List.getElem?_map, hi, hc]
  · intro i t hi hc
    simp [startAllTimers, pauseAllTimers, resetAllTimers, startTimer, pauseTimer, resetTimer,
      List.getElem?_map, hi, hc]
  · intro i t hi
    by_cases hc : t.category = c <;>
      simp [startAllTimers, pauseAllTimers, List.getElem?_map, hi, hc]

/-- C9 on a Kitchen timer and an Office timer, bulk start of Kitchen: the
Office timer at position 1 is the timer that was there. -/
theorem C9_bulk_is_single_on_category_witness :
    (startAllTimers { emptyState with timers :=
        [⟨"Tea", "5", "Kitchen", 1, .paused, .int 5⟩,
         ⟨"Call", "3", "Office", 2, .paused, .int 3⟩] } "Kitchen").timers[1]?
      = some ⟨"Call", "3", "Office", 2, .paused, .int 3⟩ :=
  ((C9_bulk_is_single_on_category { emptyState with timers :=
        [⟨"Tea", "5", "Kitchen", 1, .paused, .int 5⟩,
         ⟨"Call", "3", "Office", 2, .paused, .int 3⟩] } "Kitchen").2.2.2.1 1
      ⟨"Call", "3", "Office", 2, .paused, .int 3⟩ rfl (by decide)).1

/-! ## Persistence -/

theorem jsonValue_finite (t : Timer) (h : ∃ z, t.remaining = .int z) : jsonValue t = t := by
  obtain ⟨z, hz⟩ := h
  simp only [jsonValue, hz]

theorem jsonValue_not_finite (t : Timer) (h : ¬ ∃ z, t.remaining = .int z) :
    jsonValue t = { t with remaining := .null } := by
  unfold jsonValue
  split
  · rename_i z hz
    exact absurd ⟨z, hz⟩ h
  · rfl

theorem map_jsonValue_finite (ts : List Timer) (h : ∀ t ∈ ts, ∃ z, t.remaining = .int z) :
    ts.map jsonValue = ts := by
  induction ts with
  | nil => rfl
  | cons t ts ih =>
    rw [List.map_cons, jsonValue_finite t (h t (List.mem_cons_self _ _)),
      ih (fun u hu => h u (List.mem_cons_of_mem _ hu))]

/-- The handlers that write no storage: starts, pauses, resets, their bulk
forms and the tick leave the stored value as it was. -/
theorem storage_kept (s : AppState) (id : Nat) (c : String) :
    (startTimer s id).storage = s.storage ∧ (pauseTimer s id).storage = s.storage ∧
    (resetTimer s id).storage = s.storage ∧ (startAllTimers s c).storage = s.storage ∧
    (pauseAllTimers s c).storage = s.storage ∧ (resetAllTimers s c).storage = s.storage ∧
    (tick s).storage = s.storage :=
  ⟨rfl, rfl, rfl, rfl, rfl, rfl, rfl⟩

/-- C10, as stated, fails, in two ways. After the accepted input Tea, abc,
Kitchen is saved, the collection in memory has `NaN` left and the persisted
one has `null`. After Tea, 5, Kitchen is saved and started, the collection
in memory has the timer running and the persisted one still has it paused:
`startTimer` writes nothing. -/
theorem C10_persisted_differs_from_memory :
    (saveTimer (setNewTimer emptyState ⟨"Tea", "abc", "Kitchen"⟩) 7).timers
      = [⟨"Tea", "abc", "Kitchen", 7, .paused, .nan⟩] ∧
    persisted (saveTimer (setNewTimer emptyState ⟨"Tea", "abc", "Kitchen"⟩) 7)
      = [⟨"Tea", "abc", "Kitchen", 7, .paused, .null⟩] ∧
    persisted (saveTimer (setNewTimer emptyState ⟨"Tea", "abc", "Kitchen"⟩) 7)
      ≠ (saveTimer (setNewTimer emptyState ⟨"Tea", "abc", "Kitchen"⟩) 7).timers ∧
    (startTimer (saveTimer (setNewTimer emptyState ⟨"Tea", "5", "Kitchen"⟩) 7) 7).timers
      = [⟨"Tea", "5", "Kitchen", 7, .running, .int 5⟩] ∧
    persisted (startTimer (saveTimer (setNewTimer emptyState ⟨"Tea", "5", "Kitchen"⟩) 7) 7)
      = [⟨"Tea", "5", "Kitchen", 7, .paused, .int 5⟩] ∧
    persisted (startTimer (saveTimer (setNewTimer emptyState ⟨"Tea", "5", "Kitchen"⟩) 7) 7)
      ≠ (startTimer (saveTimer (setNewTimer emptyState ⟨"Tea", "5", "Kitchen"⟩) 7) 7).timers := by
  decide

/-- C10, amended: after `saveTimer` on a form with no empty field, after
`deleteTimer` and after `clearAllTimers` (which removes the key), the
persisted collection is the `JSON` image of the collection in memory: the
same timers in the same order, with `null` for every `remaining` that is not
a finite number; so it equals the collection in memory whenever every
`remaining` in it is a finite number. -/
theorem C10_writers_persist_json_image (s : AppState) (now id : Nat)
    (h1 : s.newTimer.name ≠ "") (h2 : s.newTimer.duration ≠ "")
    (h3 : s.newTimer.category ≠ "") :
    persisted (saveTimer s now) = (saveTimer s now).timers.map jsonValue ∧
    persisted (deleteTimer s id) = (deleteTimer s id).timers.map jsonValue ∧
    persisted (clearAllTimers s) = (clearAllTimers s).timers ∧
    (∀ t : Timer, (∃ z, t.remaining = .int z) → jsonValue t = t) ∧
    (∀ t : Timer, (¬ ∃ z, t.remaining = .int z) → jsonValue t = { t with remaining := .null }) ∧
    ((∀ t ∈ (saveTimer s now).timers, ∃ z, t.remaining = .int z) →
      persisted (saveTimer s now) = (saveTimer s now).timers) ∧
    ((∀ t ∈ (deleteTimer s id).timers, ∃ z, t.remaining = .int z) →
      persisted (deleteTimer s id) = (deleteTimer s id).timers) := by
  have hsave : persisted (saveTimer s now) = (saveTimer s now).timers.map jsonValue := by
    rw [saveTimer_accept s now h1 h2 h3]
    rfl
  have hdel : persisted (deleteTimer s id) = (deleteTimer s id).timers.map jsonValue := rfl
  refine ⟨hsave, hdel, rfl, jsonValue_finite, jsonValue_not_finite, ?_, ?_⟩
  · intro h
    rw [hsave, map_jsonValue_finite _ h]
  · intro h
    rw [hdel, map_jsonValue_finite _ h]

/-- C10, amended, on saving Tea of duration 5 into the empty collection: the
persisted collection equals the collection in memory. -/
theorem C10_writers_persist_json_image_witness :
    persisted (saveTimer (setNewTimer emptyState ⟨"Tea", "5", "Kitchen"⟩) 7)
      = (saveTimer (setNewTimer emptyState ⟨"Tea", "5", "Kitchen"⟩) 7).timers :=
  (C10_writers_persist_json_image (setNewTimer emptyState ⟨"Tea", "5", "Kitchen"⟩) 7 7
    (by decide) (by decide) (by decide)).2.2.2.2.2.1 (fun t ht => by
      have hts : (saveTimer (setNewTimer emptyState ⟨"Tea", "5", "Kitchen"⟩) 7).timers
          = [⟨"Tea", "5", "Kitchen", 7, .paused, .int 5⟩] := by decide
      rw [hts] at ht
      simp only [List.mem_singleton] at ht
      subst ht
      exact ⟨5, rfl⟩)

end TimerApp
